import Mathlib

/-!
Shallow embedding of the log-aggregation routine `check_security_logs` of
`scli.py`.  Strings are modelled as lists of characters, timestamps parsed
by `datetime.fromisoformat` as rational wall-clock seconds together with an
optional timezone offset (`none` models a timezone-naive datetime), and the
file system and the ISO-8601 parser are parameters of the embedding.
Python exceptions that escape the inner `except ValueError` handler are
modelled with `Except`: the outer `except Exception` handler of the source
turns an abort into the empty result mapping.
-/

/-- A Python string, modelled as its list of characters. -/
abbrev Str := List Char

/-- Result of `datetime.fromisoformat`: a wall-clock instant in whole
seconds together with an optional UTC offset in seconds (`tz = none`
models a timezone-naive datetime, whose `tzinfo is None`).  The embedding
works at whole-second granularity. -/
structure ParsedTime where
  wall : ℤ
  tz : Option ℤ
deriving DecidableEq

/-- `pytz.utc.localize`: tag a naive datetime with the UTC zone without
shifting its wall-clock value.  The source applies it only when
`log_time.tzinfo is None` (line 59-60 of `scli.py`). -/
def localizeUTC (t : ParsedTime) : ParsedTime :=
  match t.tz with
  | none => { wall := t.wall, tz := some 0 }
  | some _ => t

/-- The absolute instant denoted by an aware datetime: wall clock minus
UTC offset.  Subtraction and ordering of aware Python datetimes compare
these instants. -/
def instant (t : ParsedTime) : ℤ :=
  t.wall - (t.tz.getD 0)

/-- State of one log file in the modelled file system: missing
(`os.path.exists` is false), existing but failing on `open` (for example a
permission error), or readable with the given list of lines. -/
inductive FileState where
  | absent : FileState
  | unreadable : FileState
  | readable (lines : List Str) : FileState
deriving DecidableEq

/-- Diagnostics printed by `check_security_logs`. -/
inductive Diag where
  | missingSource (src : Str) : Diag
  | badTimestamp (line : Str) : Diag
  | readError : Diag
deriving DecidableEq

/-- Python `str.lower()`, character by character. -/
def lowerStr (s : Str) : Str :=
  s.map Char.toLower

/-- Does `hay` start with `needle`? -/
def startsWith : Str → Str → Bool
  | [], _ => true
  | _ :: _, [] => false
  | a :: as, b :: bs => a = b && startsWith as bs

/-- Python substring containment `needle in hay`. -/
def containsSub : Str → Str → Bool
  | needle, [] => startsWith needle []
  | needle, c :: rest => startsWith needle (c :: rest) || containsSub needle rest

/-- Line 54 of `scli.py`: `keyword.lower() in line.lower()`. -/
def keywordMatches (keyword line : Str) : Bool :=
  containsSub (lowerStr keyword) (lowerStr line)

/-- Python whitespace: the class `str.split()` (with no separator) splits
on, i.e. the characters for which `str.isspace()` is true — tab through
carriage return (9-13, including vertical tab and form feed), the file
separators 28-31 and the space 32, next line 133, no-break space 160,
ogham space mark 5760, the en-quad..hair-space range 8192-8202, the line
and paragraph separators 8232 and 8233, narrow no-break space 8239,
medium mathematical space 8287 and ideographic space 12288. -/
def pyIsSpace (c : Char) : Bool :=
  decide ((9 ≤ c.toNat ∧ c.toNat ≤ 13) ∨ (28 ≤ c.toNat ∧ c.toNat ≤ 32) ∨
    c.toNat = 133 ∨ c.toNat = 160 ∨ c.toNat = 5760 ∨
    (8192 ≤ c.toNat ∧ c.toNat ≤ 8202) ∨ c.toNat = 8232 ∨ c.toNat = 8233 ∨
    c.toNat = 8239 ∨ c.toNat = 8287 ∨ c.toNat = 12288)

/-- Helper for `splitWs`: accumulates the current token (reversed). -/
def splitWsAux : Str → Str → List Str
  | [], acc => if acc.isEmpty then [] else [acc.reverse]
  | c :: rest, acc =>
    if pyIsSpace c then
      if acc.isEmpty then splitWsAux rest [] else acc.reverse :: splitWsAux rest []
    else
      splitWsAux rest (c :: acc)

/-- Python `str.split()` with no separator: split on runs of Python
whitespace, dropping empty fields. -/
def splitWs (s : Str) : List Str :=
  splitWsAux s []

/-- The occurrence table `keyword_data`: a Python dict from the key string
`f"{log_file}:{keyword}"` to the list of collected aware timestamps, in
insertion order. -/
abbrev Data := List (Str × List ParsedTime)

/-- Python dict assignment `d[k] = v`: overwrite in place if the key is
present, else append a new entry. -/
def dictSet {α : Type} : List (Str × α) → Str → α → List (Str × α)
  | [], k, v => [(k, v)]
  | (k2, v2) :: rest, k, v =>
    if k2 = k then (k2, v) :: rest else (k2, v2) :: dictSet rest k v

/-- Python dict lookup `d[k]`, as an option. -/
def dictGet? {α : Type} : List (Str × α) → Str → Option α
  | [], _ => none
  | (k2, v) :: rest, k => if k2 = k then some v else dictGet? rest k

/-- `keyword_data[key].append(t)` (the key is always present when the
source reaches this line; the default only makes the model total). -/
def dictAppend (d : Data) (k : Str) (t : ParsedTime) : Data :=
  dictSet d k ((dictGet? d k).getD [] ++ [t])

/-- The dict key `f"{log_file}:{keyword}"` of line 42 of `scli.py`. -/
def mkKey (src kw : Str) : Str :=
  src ++ ':' :: kw

/-- Inner loop of lines 41-42: `keyword_data[f"{log_file}:{keyword}"] = []`
for each keyword of one source. -/
def initKeys (src : Str) : List Str → Data → Data
  | [], d => d
  | kw :: kws, d => initKeys src kws (dictSet d (mkKey src kw) [])

/-- Lines 40-42 of `scli.py`: initialise `keyword_data` with an empty list
for every declared (source, keyword) pair. -/
def initData : List (Str × List Str) → Data → Data
  | [], d => d
  | (src, kws) :: rest, d => initData rest (initKeys src kws d)

/-- All declared dict keys, one per declared (source, keyword) pair. -/
def allKeys : List (Str × List Str) → List Str
  | [] => []
  | (src, kws) :: rest => kws.map (mkKey src) ++ allKeys rest

/-- Lines 53-70 of `scli.py`: the keyword loop over one line.  On a match
the first whitespace field is extracted (`line.split()[0]`, an `IndexError`
when the line has no field escapes the `except ValueError` handler and is
modelled as `Except.error`), parsed (`ValueError` prints a diagnostic and
continues with the next keyword), localised to UTC when naive, and the
occurrence is appended when it lies in the trailing window. -/
def scanKeywords (parse : Str → Option ParsedTime) (now window : ℤ) (src line : Str) :
    List Str → Data → List Diag → Except (List Diag) (Data × List Diag)
  | [], d, ds => Except.ok (d, ds)
  | kw :: kws, d, ds =>
    if keywordMatches kw line then
      match (splitWs line).head? with
      | none => Except.error ds
      | some tok =>
        match parse tok with
        | none => scanKeywords parse now window src line kws d (ds ++ [Diag.badTimestamp line])
        | some t0 =>
          let t := localizeUTC t0
          if now - instant t ≤ window then
            scanKeywords parse now window src line kws (dictAppend d (mkKey src kw) t) ds
          else
            scanKeywords parse now window src line kws d ds
    else
      scanKeywords parse now window src line kws d ds

/-- Lines 52-70 of `scli.py`: the line loop over one readable source. -/
def scanLines (parse : Str → Option ParsedTime) (now window : ℤ) (src : Str) (kws : List Str) :
    List Str → Data → List Diag → Except (List Diag) (Data × List Diag)
  | [], d, ds => Except.ok (d, ds)
  | line :: rest, d, ds =>
    match scanKeywords parse now window src line kws d ds with
    | Except.error ds2 => Except.error ds2
    | Except.ok (d2, ds2) => scanLines parse now window src kws rest d2 ds2

/-- Lines 46-70 of `scli.py`: the source loop.  A missing source prints a
diagnostic and is skipped; a source that exists but cannot be opened raises
out of the `for` loop (modelled as `Except.error`). -/
def scanSources (parse : Str → Option ParsedTime) (now window : ℤ) (fs : Str → FileState) :
    List (Str × List Str) → Data → List Diag → Except (List Diag) (Data × List Diag)
  | [], d, ds => Except.ok (d, ds)
  | (src, kws) :: rest, d, ds =>
    match fs src with
    | FileState.absent => scanSources parse now window fs rest d (ds ++ [Diag.missingSource src])
    | FileState.unreadable => Except.error ds
    | FileState.readable lines =>
      match scanLines parse now window src kws lines d ds with
      | Except.error ds2 => Except.error ds2
      | Except.ok (d2, ds2) => scanSources parse now window fs rest d2 ds2

/-- The statistics value of the result dict: `(count, average interval)`. -/
structure KeywordStats where
  count : ℕ
  averageIntervalSeconds : ℚ
deriving DecidableEq

/-- `timestamps.sort()`: aware Python datetimes sort by their instant. -/
def sortTimes (l : List ParsedTime) : List ParsedTime :=
  List.insertionSort (fun a b => instant a ≤ instant b) l

/-- Lines 80-83 of `scli.py`: the consecutive deltas
`(timestamps[i] - timestamps[i-1]).total_seconds()`. -/
def intervalsOf : List ParsedTime → List ℤ
  | [] => []
  | [_] => []
  | a :: b :: rest => (instant b - instant a) :: intervalsOf (b :: rest)

/-- Lines 78-87 of `scli.py`: statistics of one key from its collected
timestamps: sort, take consecutive deltas, average (0 without deltas). -/
def statsFor (timestamps : List ParsedTime) : KeywordStats :=
  if timestamps.isEmpty then
    { count := 0, averageIntervalSeconds := 0 }
  else
    let ts := sortTimes timestamps
    let ivs := intervalsOf ts
    { count := ts.length
      averageIntervalSeconds := if ivs.isEmpty then 0 else (ivs.sum : ℚ) / (ivs.length : ℚ) }

/-- Lines 76-88 of `scli.py`: build the result dict from `keyword_data`. -/
def computeStats (d : Data) : List (Str × KeywordStats) :=
  d.map (fun p => (p.1, statsFor p.2))

/-- `check_security_logs` generalised over the aggregation inputs the
surrounding program fixes: the ISO-8601 parser, the file system, the
reference instant `now` and the window length in seconds.  An abort of the
scan (the outer `except Exception` handler of lines 71-73) prints a
diagnostic and returns the empty dict. -/
def checkSecurityLogsGen (parse : Str → Option ParsedTime) (fs : Str → FileState)
    (now window : ℤ) (sources : List (Str × List Str)) :
    List (Str × KeywordStats) × List Diag :=
  match scanSources parse now window fs sources (initData sources []) [] with
  | Except.error ds => ([], ds ++ [Diag.readError])
  | Except.ok (d, ds) => (computeStats d, ds)

/-- Lines 17-37 of `scli.py`: the declared sources and their keywords. -/
def logFiles : List (Str × List Str) :=
  [ ("/var/log/auth.log".toList,
      [ "Failed password".toList, "Accepted password".toList, "Invalid user".toList,
        "sudo".toList, "root login".toList, "permission denied".toList,
        "authentication failure".toList, "SECURITY VIOLATION".toList ]),
    ("/var/log/syslog".toList,
      [ "error".toList, "warning".toList, "critical".toList, "emergency".toList,
        "firewall".toList, "iptables".toList ]),
    ("/var/log/kern.log".toList,
      [ "segfault".toList, "error".toList, "fail".toList, "denied".toList ]) ]

/-- `check_security_logs` itself: the fixed source table and the fixed
24-hour window (86400 seconds). -/
def check_security_logs (parse : Str → Option ParsedTime) (fs : Str → FileState) (now : ℤ) :
    List (Str × KeywordStats) × List Diag :=
  checkSecurityLogsGen parse fs now 86400 logFiles

/-! ### Helper lemmas about the dictionary operations -/
theorem dictGet?_dictSet {α : Type} (d : List (Str × α)) (k k2 : Str) (v : α) :
    dictGet? (dictSet d k v) k2 = if k2 = k then some v else dictGet? d k2 := by
  induction d with
  | nil =>
    by_cases h : k2 = k
    · simp [dictSet, dictGet?, h]
    · have h2 : ¬ k = k2 := fun e => h e.symm
      simp [dictSet, dictGet?, h, h2]
  | cons p rest ih =>
    obtain ⟨k3, v3⟩ := p
    by_cases h3 : k3 = k
    · subst h3
      by_cases h : k2 = k3
      · subst h
        simp [dictSet, dictGet?]
      · have h2 : ¬ k3 = k2 := fun e => h e.symm
        simp [dictSet, dictGet?, h, h2]
    · by_cases h : k2 = k3
      · subst h
        have h2 : ¬ k2 = k := fun e => h3 e
        simp [dictSet, dictGet?, h3, h2]
      · have h2 : ¬ k3 = k2 := fun e => h e.symm
        simp [dictSet, dictGet?, h3, h2, ih]

theorem mem_fst_dictSet {α : Type} (d : List (Str × α)) (k k2 : Str) (v : α) :
    k2 ∈ (dictSet d k v).map Prod.fst ↔ k2 = k ∨ k2 ∈ d.map Prod.fst := by
  induction d with
  | nil => simp [dictSet]
  | cons p rest ih =>
    obtain ⟨k3, v3⟩ := p
    by_cases h3 : k3 = k
    · subst h3
      have hset : dictSet ((k3, v3) :: rest) k3 v = (k3, v) :: rest := by
        simp [dictSet]
      rw [hset]
      simp only [List.map_cons, List.mem_cons]
      tauto
    · simp only [dictSet, if_neg h3, List.map_cons, List.mem_cons, ih]
      tauto

theorem fst_dictSet_of_mem {α : Type} (d : List (Str × α)) (k : Str) (v : α)
    (h : k ∈ d.map Prod.fst) : (dictSet d k v).map Prod.fst = d.map Prod.fst := by
  induction d with
  | nil => simp at h
  | cons p rest ih =>
    obtain ⟨k3, v3⟩ := p
    by_cases h3 : k3 = k
    · subst h3
      simp [dictSet]
    · simp only [List.map_cons, List.mem_cons] at h
      rcases h with h | h
      · exact absurd h.symm (fun e => h3 e)
      · simp [dictSet, h3, ih h]

theorem nodup_fst_dictSet {α : Type} (d : List (Str × α)) (k : Str) (v : α)
    (h : (d.map Prod.fst).Nodup) : ((dictSet d k v).map Prod.fst).Nodup := by
  induction d with
  | nil => simp [dictSet]
  | cons p rest ih =>
    obtain ⟨k3, v3⟩ := p
    simp only [List.map_cons, List.nodup_cons] at h
    by_cases h3 : k3 = k
    · subst h3
      have hset : dictSet ((k3, v3) :: rest) k3 v = (k3, v) :: rest := by
        simp [dictSet]
      rw [hset]
      simp only [List.map_cons, List.nodup_cons]
      exact ⟨h.1, h.2⟩
    · simp only [dictSet, if_neg h3, List.map_cons, List.nodup_cons]
      refine ⟨fun hmem => ?_, ih h.2⟩
      rcases (mem_fst_dictSet rest k k3 v).1 hmem with he | hmem2
      · exact h3 he
      · exact h.1 hmem2

theorem dictGet?_isSome_of_mem_fst {α : Type} (d : List (Str × α)) (k : Str)
    (h : k ∈ d.map Prod.fst) : ∃ v, dictGet? d k = some v := by
  induction d with
  | nil => simp at h
  | cons p rest ih =>
    obtain ⟨k3, v3⟩ := p
    by_cases he : k3 = k
    · exact ⟨v3, by simp [dictGet?, he]⟩
    · simp only [List.map_cons, List.mem_cons] at h
      rcases h with h | h
      · exact absurd h.symm he
      · obtain ⟨v, hv⟩ := ih h
        exact ⟨v, by simp [dictGet?, he, hv]⟩

theorem mem_of_dictGet?_eq_some {α : Type} (d : List (Str × α)) (k : Str) (v : α)
    (h : dictGet? d k = some v) : (k, v) ∈ d := by
  induction d with
  | nil => simp [dictGet?] at h
  | cons p rest ih =>
    obtain ⟨k3, v3⟩ := p
    by_cases he : k3 = k
    · subst he
      simp [dictGet?] at h
      subst h
      exact List.mem_cons_self _ _
    · simp only [dictGet?, if_neg he] at h
      exact List.mem_cons_of_mem _ (ih h)

/-! ### The initial occurrence table -/

theorem dictGet?_initKeys (src : Str) (kws : List Str) (d : Data) (k : Str) :
    dictGet? (initKeys src kws d) k
      = if k ∈ kws.map (mkKey src) then some [] else dictGet? d k := by
  induction kws generalizing d with
  | nil => simp [initKeys]
  | cons kw kws ih =>
    simp only [initKeys, ih, dictGet?_dictSet, List.map_cons, List.mem_cons]
    by_cases h1 : k ∈ kws.map (mkKey src)
    · simp [h1]
    · by_cases h2 : k = mkKey src kw <;> simp [h1, h2]

theorem dictGet?_initData (sources : List (Str × List Str)) (d : Data) (k : Str) :
    dictGet? (initData sources d) k
      = if k ∈ allKeys sources then some [] else dictGet? d k := by
  induction sources generalizing d with
  | nil => simp [initData, allKeys]
  | cons p rest ih =>
    obtain ⟨src, kws⟩ := p
    simp only [initData, ih, allKeys, dictGet?_initKeys, List.mem_append]
    by_cases h1 : k ∈ allKeys rest
    · simp [h1]
    · by_cases h2 : k ∈ kws.map (mkKey src) <;> simp [h1, h2]

theorem mem_fst_initKeys (src : Str) (kws : List Str) (d : Data) (k : Str) :
    k ∈ (initKeys src kws d).map Prod.fst ↔ k ∈ kws.map (mkKey src) ∨ k ∈ d.map Prod.fst := by
  induction kws generalizing d with
  | nil => simp [initKeys]
  | cons kw kws ih =>
    simp only [initKeys, ih, mem_fst_dictSet, List.map_cons, List.mem_cons]
    tauto

theorem mem_fst_initData (sources : List (Str × List Str)) (d : Data) (k : Str) :
    k ∈ (initData sources d).map Prod.fst ↔ k ∈ allKeys sources ∨ k ∈ d.map Prod.fst := by
  induction sources generalizing d with
  | nil => simp [initData, allKeys]
  | cons p rest ih =>
    obtain ⟨src, kws⟩ := p
    simp only [initData, ih, allKeys, mem_fst_initKeys, List.mem_append]
    tauto

theorem nodup_fst_initKeys (src : Str) (kws : List Str) (d : Data)
    (h : (d.map Prod.fst).Nodup) : ((initKeys src kws d).map Prod.fst).Nodup := by
  induction kws generalizing d with
  | nil => exact h
  | cons kw kws ih => exact ih _ (nodup_fst_dictSet _ _ _ h)

theorem nodup_fst_initData (sources : List (Str × List Str)) (d : Data)
    (h : (d.map Prod.fst).Nodup) : ((initData sources d).map Prod.fst).Nodup := by
  induction sources generalizing d with
  | nil => exact h
  | cons p rest ih =>
    obtain ⟨src, kws⟩ := p
    exact ih _ (nodup_fst_initKeys _ _ _ h)

theorem mkKey_mem_allKeys (sources : List (Str × List Str)) (src : Str) (kws : List Str)
    (kw : Str) (hs : (src, kws) ∈ sources) (hkw : kw ∈ kws) :
    mkKey src kw ∈ allKeys sources := by
  induction sources with
  | nil => simp at hs
  | cons p rest ih =>
    rcases List.mem_cons.1 hs with he | hmem
    · subst he
      simp only [allKeys, List.mem_append]
      exact Or.inl (List.mem_map_of_mem _ hkw)
    · obtain ⟨src2, kws2⟩ := p
      simp only [allKeys, List.mem_append]
      exact Or.inr (ih hmem)

/-! ### Statistics lemmas -/

instance : IsTotal ParsedTime (fun a b => instant a ≤ instant b) :=
  ⟨fun a b => le_total (instant a) (instant b)⟩

instance : IsTrans ParsedTime (fun a b => instant a ≤ instant b) :=
  ⟨fun _ _ _ hab hbc => le_trans hab hbc⟩

theorem sortTimes_perm (l : List ParsedTime) : List.Perm (sortTimes l) l :=
  List.perm_insertionSort _ l

theorem sortTimes_sorted (l : List ParsedTime) :
    List.Sorted (fun a b => instant a ≤ instant b) (sortTimes l) :=
  List.sorted_insertionSort _ l

theorem sortTimes_length (l : List ParsedTime) : (sortTimes l).length = l.length :=
  (sortTimes_perm l).length_eq

theorem intervalsOf_length (l : List ParsedTime) :
    (intervalsOf l).length = l.length - 1 := by
  induction l with
  | nil => simp [intervalsOf]
  | cons a rest ih =>
    cases rest with
    | nil => simp [intervalsOf]
    | cons b rest2 =>
      simp only [intervalsOf, List.length_cons] at ih ⊢
      omega

theorem statsFor_count (l : List ParsedTime) : (statsFor l).count = l.length := by
  cases l with
  | nil => rfl
  | cons a rest =>
    simp only [statsFor, List.isEmpty_cons, if_neg Bool.false_ne_true]
    exact sortTimes_length _

theorem statsFor_avg_small (l : List ParsedTime) (h : l.length ≤ 1) :
    (statsFor l).averageIntervalSeconds = 0 := by
  cases l with
  | nil => rfl
  | cons a rest =>
    cases rest with
    | nil => rfl
    | cons b rest2 => simp at h

theorem statsFor_avg_of_two_le (l : List ParsedTime) (h : 2 ≤ l.length) :
    (statsFor l).averageIntervalSeconds
      = ((intervalsOf (sortTimes l)).sum : ℚ) / ((intervalsOf (sortTimes l)).length : ℚ) := by
  have hne : ¬ l.isEmpty = true := by
    cases l with
    | nil => simp at h
    | cons a rest => simp
  have hlen : (intervalsOf (sortTimes l)).length = l.length - 1 := by
    rw [intervalsOf_length, sortTimes_length]
  have hivne : ¬ (intervalsOf (sortTimes l)).isEmpty = true := by
    rw [List.isEmpty_iff_length_eq_zero, hlen]
    omega
  simp only [statsFor, if_neg hne, if_neg hivne]

/-! ### Scan invariants -/

theorem scanKeywords_ok_keys (parse : Str → Option ParsedTime) (now window : ℤ)
    (src line : Str) (kws : List Str) (d : Data) (ds : List Diag) (d2 : Data) (ds2 : List Diag)
    (hk : ∀ kw ∈ kws, mkKey src kw ∈ d.map Prod.fst)
    (h : scanKeywords parse now window src line kws d ds = Except.ok (d2, ds2)) :
    d2.map Prod.fst = d.map Prod.fst := by
  induction kws generalizing d ds with
  | nil =>
    simp only [scanKeywords, Except.ok.injEq, Prod.mk.injEq] at h
    rw [h.1]
  | cons kw kws ih =>
    have hk1 : mkKey src kw ∈ d.map Prod.fst := hk kw (List.mem_cons_self _ _)
    have hk2 : ∀ kw2 ∈ kws, mkKey src kw2 ∈ d.map Prod.fst :=
      fun kw2 h2 => hk kw2 (List.mem_cons_of_mem _ h2)
    simp only [scanKeywords] at h
    split at h
    · split at h
      · cases h
      · split at h
        · exact ih d _ hk2 h
        · split at h
          · rename_i t0 heq hcond
            have hpres : (dictAppend d (mkKey src kw) (localizeUTC t0)).map Prod.fst
                = d.map Prod.fst := fst_dictSet_of_mem _ _ _ hk1
            have := ih _ ds (fun kw2 h2 => by rw [hpres]; exact hk2 kw2 h2) h
            rw [this, hpres]
          · exact ih d ds hk2 h
    · exact ih d ds hk2 h

theorem scanLines_ok_keys (parse : Str → Option ParsedTime) (now window : ℤ)
    (src : Str) (kws : List Str) (lines : List Str) (d : Data) (ds : List Diag)
    (d2 : Data) (ds2 : List Diag)
    (hk : ∀ kw ∈ kws, mkKey src kw ∈ d.map Prod.fst)
    (h : scanLines parse now window src kws lines d ds = Except.ok (d2, ds2)) :
    d2.map Prod.fst = d.map Prod.fst := by
  induction lines generalizing d ds with
  | nil =>
    simp only [scanLines, Except.ok.injEq, Prod.mk.injEq] at h
    rw [h.1]
  | cons line rest ih =>
    simp only [scanLines] at h
    split at h
    · cases h
    · next d3 ds3 hsk =>
      have hfst : d3.map Prod.fst = d.map Prod.fst :=
        scanKeywords_ok_keys parse now window src line kws d ds d3 ds3 hk hsk
      have := ih d3 ds3 (fun kw2 h2 => by rw [hfst]; exact hk kw2 h2) h
      rw [this, hfst]

theorem scanSources_ok_keys (parse : Str → Option ParsedTime) (now window : ℤ)
    (fs : Str → FileState) (sources : List (Str × List Str)) (d : Data) (ds : List Diag)
    (d2 : Data) (ds2 : List Diag)
    (hk : ∀ p ∈ sources, ∀ kw ∈ p.2, mkKey p.1 kw ∈ d.map Prod.fst)
    (h : scanSources parse now window fs sources d ds = Except.ok (d2, ds2)) :
    d2.map Prod.fst = d.map Prod.fst := by
  induction sources generalizing d ds with
  | nil =>
    simp only [scanSources, Except.ok.injEq, Prod.mk.injEq] at h
    rw [h.1]
  | cons p rest ih =>
    obtain ⟨src, kws⟩ := p
    have hkrest : ∀ p2 ∈ rest, ∀ kw ∈ p2.2, mkKey p2.1 kw ∈ d.map Prod.fst :=
      fun p2 h2 => hk p2 (List.mem_cons_of_mem _ h2)
    simp only [scanSources] at h
    split at h
    · exact ih d _ hkrest h
    · cases h
    · rename_i lines hfs
      split at h
      · cases h
      · rename_i d3 ds3 hsl
        have hfst : d3.map Prod.fst = d.map Prod.fst :=
          scanLines_ok_keys parse now window src kws lines d ds d3 ds3
            (fun kw2 h2 => hk (src, kws) (List.mem_cons_self _ _) kw2 h2) hsl
        have := ih d3 ds3
          (fun p2 h2 kw2 h3 => by rw [hfst]; exact hkrest p2 h2 kw2 h3) h
        rw [this, hfst]

theorem scanKeywords_untouched (parse : Str → Option ParsedTime) (now window : ℤ)
    (src line : Str) (kws : List Str) (d : Data) (ds : List Diag) (d2 : Data) (ds2 : List Diag)
    (k : Str) (hk : ∀ kw ∈ kws, mkKey src kw ≠ k)
    (h : scanKeywords parse now window src line kws d ds = Except.ok (d2, ds2)) :
    dictGet? d2 k = dictGet? d k := by
  induction kws generalizing d ds with
  | nil =>
    simp only [scanKeywords, Except.ok.injEq, Prod.mk.injEq] at h
    rw [h.1]
  | cons kw kws ih =>
    have hk1 : mkKey src kw ≠ k := hk kw (List.mem_cons_self _ _)
    have hk2 : ∀ kw2 ∈ kws, mkKey src kw2 ≠ k :=
      fun kw2 h2 => hk kw2 (List.mem_cons_of_mem _ h2)
    simp only [scanKeywords] at h
    split at h
    · split at h
      · cases h
      · split at h
        · exact ih d _ hk2 h
        · split at h
          · rename_i t0 heq hcond
            have hstep : dictGet? (dictAppend d (mkKey src kw) (localizeUTC t0)) k
                = dictGet? d k := by
              rw [dictAppend, dictGet?_dictSet]
              exact if_neg (fun e => hk1 e.symm)
            rw [ih _ ds hk2 h, hstep]
          · exact ih d ds hk2 h
    · exact ih d ds hk2 h

theorem scanLines_untouched (parse : Str → Option ParsedTime) (now window : ℤ)
    (src : Str) (kws : List Str) (lines : List Str) (d : Data) (ds : List Diag)
    (d2 : Data) (ds2 : List Diag) (k : Str) (hk : ∀ kw ∈ kws, mkKey src kw ≠ k)
    (h : scanLines parse now window src kws lines d ds = Except.ok (d2, ds2)) :
    dictGet? d2 k = dictGet? d k := by
  induction lines generalizing d ds with
  | nil =>
    simp only [scanLines, Except.ok.injEq, Prod.mk.injEq] at h
    rw [h.1]
  | cons line rest ih =>
    simp only [scanLines] at h
    split at h
    · cases h
    · rename_i d3 ds3 hsk
      rw [ih d3 ds3 h,
        scanKeywords_untouched parse now window src line kws d ds d3 ds3 k hk hsk]

theorem scanSources_untouched (parse : Str → Option ParsedTime) (now window : ℤ)
    (fs : Str → FileState) (sources : List (Str × List Str)) (d : Data) (ds : List Diag)
    (d2 : Data) (ds2 : List Diag) (k : Str)
    (hk : ∀ p ∈ sources, ∀ kw ∈ p.2, mkKey p.1 kw = k → fs p.1 = FileState.absent)
    (h : scanSources parse now window fs sources d ds = Except.ok (d2, ds2)) :
    dictGet? d2 k = dictGet? d k := by
  induction sources generalizing d ds with
  | nil =>
    simp only [scanSources, Except.ok.injEq, Prod.mk.injEq] at h
    rw [h.1]
  | cons p rest ih =>
    obtain ⟨src, kws⟩ := p
    have hkrest : ∀ p2 ∈ rest, ∀ kw ∈ p2.2, mkKey p2.1 kw = k → fs p2.1 = FileState.absent :=
      fun p2 h2 => hk p2 (List.mem_cons_of_mem _ h2)
    simp only [scanSources] at h
    split at h
    · exact ih d _ hkrest h
    · cases h
    · rename_i lines hfs
      split at h
      · cases h
      · rename_i d3 ds3 hsl
        have hne : ∀ kw ∈ kws, mkKey src kw ≠ k := by
          intro kw hkw he
          have := hk (src, kws) (List.mem_cons_self _ _) kw hkw he
          rw [hfs] at this
          cases this
        rw [ih d3 ds3 hkrest h,
          scanLines_untouched parse now window src kws lines d ds d3 ds3 k hne hsl]

theorem scanKeywords_ok_diags (parse : Str → Option ParsedTime) (now window : ℤ)
    (src line : Str) (kws : List Str) (d : Data) (ds : List Diag) (d2 : Data) (ds2 : List Diag)
    (h : scanKeywords parse now window src line kws d ds = Except.ok (d2, ds2)) :
    ∃ t, ds2 = ds ++ t := by
  induction kws generalizing d ds with
  | nil =>
    simp only [scanKeywords, Except.ok.injEq, Prod.mk.injEq] at h
    exact ⟨[], by rw [← h.2, List.append_nil]⟩
  | cons kw kws ih =>
    simp only [scanKeywords] at h
    split at h
    · split at h
      · cases h
      · split at h
        · obtain ⟨t, ht⟩ := ih _ _ h
          exact ⟨Diag.badTimestamp line :: t, by rw [ht, List.append_assoc]; rfl⟩
        · split at h
          · exact ih _ _ h
          · exact ih _ _ h
    · exact ih _ _ h

theorem scanLines_ok_diags (parse : Str → Option ParsedTime) (now window : ℤ)
    (src : Str) (kws : List Str) (lines : List Str) (d : Data) (ds : List Diag)
    (d2 : Data) (ds2 : List Diag)
    (h : scanLines parse now window src kws lines d ds = Except.ok (d2, ds2)) :
    ∃ t, ds2 = ds ++ t := by
  induction lines generalizing d ds with
  | nil =>
    simp only [scanLines, Except.ok.injEq, Prod.mk.injEq] at h
    exact ⟨[], by rw [← h.2, List.append_nil]⟩
  | cons line rest ih =>
    simp only [scanLines] at h
    split at h
    · cases h
    · rename_i d3 ds3 hsk
      obtain ⟨t1, ht1⟩ := scanKeywords_ok_diags parse now window src line kws d ds d3 ds3 hsk
      obtain ⟨t2, ht2⟩ := ih d3 ds3 h
      exact ⟨t1 ++ t2, by rw [ht2, ht1, List.append_assoc]⟩

theorem scanSources_ok_diags (parse : Str → Option ParsedTime) (now window : ℤ)
    (fs : Str → FileState) (sources : List (Str × List Str)) (d : Data) (ds : List Diag)
    (d2 : Data) (ds2 : List Diag)
    (h : scanSources parse now window fs sources d ds = Except.ok (d2, ds2)) :
    ∃ t, ds2 = ds ++ t := by
  induction sources generalizing d ds with
  | nil =>
    simp only [scanSources, Except.ok.injEq, Prod.mk.injEq] at h
    exact ⟨[], by rw [← h.2, List.append_nil]⟩
  | cons p rest ih =>
    obtain ⟨src, kws⟩ := p
    simp only [scanSources] at h
    split at h
    · obtain ⟨t, ht⟩ := ih _ _ h
      exact ⟨Diag.missingSource src :: t, by rw [ht, List.append_assoc]; rfl⟩
    · cases h
    · rename_i lines hfs
      split at h
      · cases h
      · rename_i d3 ds3 hsl
        obtain ⟨t1, ht1⟩ := scanLines_ok_diags parse now window src kws lines d ds d3 ds3 hsl
        obtain ⟨t2, ht2⟩ := ih d3 ds3 h
        exact ⟨t1 ++ t2, by rw [ht2, ht1, List.append_assoc]⟩

theorem scanSources_diag_of_absent (parse : Str → Option ParsedTime) (now window : ℤ)
    (fs : Str → FileState) (sources : List (Str × List Str)) (d : Data) (ds : List Diag)
    (d2 : Data) (ds2 : List Diag) (src0 : Str) (kws0 : List Str)
    (hs : (src0, kws0) ∈ sources) (habs : fs src0 = FileState.absent)
    (h : scanSources parse now window fs sources d ds = Except.ok (d2, ds2)) :
    Diag.missingSource src0 ∈ ds2 := by
  induction sources generalizing d ds with
  | nil => simp at hs
  | cons p rest ih =>
    obtain ⟨src, kws⟩ := p
    simp only [scanSources] at h
    rcases List.mem_cons.1 hs with he | hmem
    · have hsrc : src = src0 := (Prod.mk.injEq _ _ _ _ ▸ he.symm).1
      subst hsrc
      rw [habs] at h
      obtain ⟨t, ht⟩ := scanSources_ok_diags parse now window fs rest d _ d2 ds2 h
      rw [ht]
      exact List.mem_append_left _ (by simp)
    · split at h
      · exact ih d _ hmem h
      · cases h
      · rename_i lines hfs
        split at h
        · cases h
        · rename_i d3 ds3 hsl
          exact ih d3 ds3 hmem h

theorem dictGet?_computeStats (d : Data) (k : Str) :
    dictGet? (computeStats d) k = (dictGet? d k).map statsFor := by
  induction d with
  | nil => rfl
  | cons p rest ih =>
    obtain ⟨k2, l⟩ := p
    by_cases h : k2 = k
    · simp [computeStats, dictGet?, h]
    · simp only [computeStats, List.map_cons] at ih ⊢
      simp [dictGet?, h, ih]

theorem fst_computeStats (d : Data) : (computeStats d).map Prod.fst = d.map Prod.fst := by
  induction d with
  | nil => rfl
  | cons p rest ih =>
    obtain ⟨k2, l⟩ := p
    simp only [computeStats, List.map_cons] at ih ⊢
    rw [ih]

/-! ### Claims about the statistics phase and the result mapping -/

/-- C1: every `(source, keyword)` key of the aggregation output carries the
statistics of its OWN collected occurrence list: when the scan collects
the qualifying occurrences `l` for key `k` (looked up with `dictGet?` in
the scan's final table), the output maps `k` to `statsFor l`, whose
`count` is the number of those occurrences; with zero or one occurrence
`averageIntervalSeconds` is 0; with `n ≥ 2` occurrences the occurrences
are sorted ascending (the sorted list is a permutation of the collected
one, sorted by instant) and `averageIntervalSeconds` is the arithmetic
mean (sum divided by `n - 1`) of the consecutive deltas of the sorted
list, in seconds. -/
theorem C1_per_key_stats (parse : Str → Option ParsedTime) (fs : Str → FileState)
    (now window : ℤ) (sources : List (Str × List Str)) (d : Data) (ds : List Diag)
    (hok : scanSources parse now window fs sources (initData sources []) []
      = Except.ok (d, ds))
    (k : Str) (l : List ParsedTime) (hl : dictGet? d k = some l) :
    dictGet? (checkSecurityLogsGen parse fs now window sources).1 k
      = some (statsFor l) ∧
    (statsFor l).count = l.length ∧
    List.Perm (sortTimes l) l ∧
    List.Sorted (fun a b => instant a ≤ instant b) (sortTimes l) ∧
    (l.length ≤ 1 → (statsFor l).averageIntervalSeconds = 0) ∧
    (2 ≤ l.length →
      (intervalsOf (sortTimes l)).length = l.length - 1 ∧
      (statsFor l).averageIntervalSeconds
        = ((intervalsOf (sortTimes l)).sum : ℚ)
          / ((intervalsOf (sortTimes l)).length : ℚ)) := by
  have hrun : (checkSecurityLogsGen parse fs now window sources).1 = computeStats d := by
    unfold checkSecurityLogsGen
    rw [hok]
  refine ⟨?_, statsFor_count l, sortTimes_perm l, sortTimes_sorted l,
    statsFor_avg_small l, ?_⟩
  · rw [hrun, dictGet?_computeStats, hl]
    rfl
  · intro hlen
    exact ⟨by rw [intervalsOf_length, sortTimes_length], statsFor_avg_of_two_le l hlen⟩

/-- C3: in every non-catastrophic run (the scan loop finishes without the
outer exception handler firing) the result mapping has exactly one entry
for every declared (source, keyword) pair; a pair whose collected
occurrence list is empty maps to count 0 and averageIntervalSeconds 0, so
no declared key is absent. -/
theorem C3_all_keys_present (parse : Str → Option ParsedTime) (fs : Str → FileState)
    (now window : ℤ) (sources : List (Str × List Str)) (d : Data) (ds : List Diag)
    (hok : scanSources parse now window fs sources (initData sources []) []
      = Except.ok (d, ds))
    (src : Str) (kws : List Str) (kw : Str) (hs : (src, kws) ∈ sources) (hkw : kw ∈ kws) :
    checkSecurityLogsGen parse fs now window sources = (computeStats d, ds) ∧
    ∃ l : List ParsedTime,
      dictGet? d (mkKey src kw) = some l ∧
      dictGet? (computeStats d) (mkKey src kw) = some (statsFor l) ∧
      (l = [] → statsFor l = { count := 0, averageIntervalSeconds := 0 }) ∧
      ((computeStats d).map Prod.fst).Nodup ∧
      mkKey src kw ∈ (computeStats d).map Prod.fst := by
  have hrun : checkSecurityLogsGen parse fs now window sources = (computeStats d, ds) := by
    unfold checkSecurityLogsGen
    rw [hok]
  have hkeymem : mkKey src kw ∈ allKeys sources := mkKey_mem_allKeys sources src kws kw hs hkw
  have hinitmem : ∀ k ∈ allKeys sources, k ∈ (initData sources []).map Prod.fst := by
    intro k hk
    exact (mem_fst_initData sources [] k).2 (Or.inl hk)
  have hfst : d.map Prod.fst = (initData sources []).map Prod.fst :=
    scanSources_ok_keys parse now window fs sources (initData sources []) [] d ds
      (fun p hp kw2 h2 => hinitmem _ (mkKey_mem_allKeys sources p.1 p.2 kw2 hp h2)) hok
  have hdm : mkKey src kw ∈ d.map Prod.fst := by
    rw [hfst]; exact hinitmem _ hkeymem
  obtain ⟨l, hl⟩ := dictGet?_isSome_of_mem_fst d (mkKey src kw) hdm
  have hnodup : (d.map Prod.fst).Nodup := by
    rw [hfst]
    exact nodup_fst_initData sources [] (by simp)
  refine ⟨hrun, l, hl, ?_, ?_, ?_, ?_⟩
  · rw [dictGet?_computeStats, hl]; rfl
  · intro he; rw [he]; rfl
  · rw [fst_computeStats]
    exact hnodup
  · rw [fst_computeStats]
    exact hdm

/-- C4: the aggregation never propagates an exception: for every input it
returns a result pair, and when the scan aborts (the catastrophic
`except Exception` path) the returned mapping is empty, with a final
diagnostic recorded. -/
theorem C4_total_and_empty_on_abort (parse : Str → Option ParsedTime) (fs : Str → FileState)
    (now window : ℤ) (sources : List (Str × List Str)) :
    (∃ d ds, scanSources parse now window fs sources (initData sources []) []
        = Except.ok (d, ds) ∧
      checkSecurityLogsGen parse fs now window sources = (computeStats d, ds)) ∨
    (∃ ds, scanSources parse now window fs sources (initData sources []) []
        = Except.error ds ∧
      checkSecurityLogsGen parse fs now window sources = ([], ds ++ [Diag.readError])) := by
  cases hscan : scanSources parse now window fs sources (initData sources []) [] with
  | error ds =>
    refine Or.inr ⟨ds, rfl, ?_⟩
    unfold checkSecurityLogsGen
    rw [hscan]
  | ok p =>
    obtain ⟨d, ds⟩ := p
    refine Or.inl ⟨d, ds, rfl, ?_⟩
    unfold checkSecurityLogsGen
    rw [hscan]

/-- C2 (amended): when a declared source does NOT exist on disk, and the
run otherwise completes (the scan returns without aborting), that source is
skipped with a `missingSource` diagnostic, every one of its keyword keys is
still present in the returned mapping with count 0 and
averageIntervalSeconds 0, and the caller receives the computed mapping (no
exception).  The collision hypothesis `hun` says that no other declared
pair of a non-absent source shares this pair's key string; it holds for
the program's fixed table.  (A source that exists but cannot be opened
instead aborts the whole run — see the counterexample.) -/
theorem C2_amended_absent_source_zero_stats (parse : Str → Option ParsedTime)
    (fs : Str → FileState) (now window : ℤ) (sources : List (Str × List Str))
    (d : Data) (ds : List Diag) (src0 : Str) (kws0 : List Str) (kw : Str)
    (hs : (src0, kws0) ∈ sources) (hkw : kw ∈ kws0)
    (habs : fs src0 = FileState.absent)
    (hun : ∀ p ∈ sources, ∀ kw2 ∈ p.2, mkKey p.1 kw2 = mkKey src0 kw
      → fs p.1 = FileState.absent)
    (hok : scanSources parse now window fs sources (initData sources []) []
      = Except.ok (d, ds)) :
    checkSecurityLogsGen parse fs now window sources = (computeStats d, ds) ∧
    Diag.missingSource src0 ∈ ds ∧
    dictGet? (computeStats d) (mkKey src0 kw)
      = some { count := 0, averageIntervalSeconds := 0 } := by
  have hrun : checkSecurityLogsGen parse fs now window sources = (computeStats d, ds) := by
    unfold checkSecurityLogsGen
    rw [hok]
  have hdiag : Diag.missingSource src0 ∈ ds :=
    scanSources_diag_of_absent parse now window fs sources (initData sources []) [] d ds
      src0 kws0 hs habs hok
  have huntouched : dictGet? d (mkKey src0 kw) = dictGet? (initData sources []) (mkKey src0 kw) :=
    scanSources_untouched parse now window fs sources (initData sources []) [] d ds
      (mkKey src0 kw) hun hok
  have hinit : dictGet? (initData sources []) (mkKey src0 kw) = some [] := by
    rw [dictGet?_initData]
    exact if_pos (mkKey_mem_allKeys sources src0 kws0 kw hs hkw)
  refine ⟨hrun, hdiag, ?_⟩
  rw [dictGet?_computeStats, huntouched, hinit]
  rfl

/-- C2 (counterexample): the claim fails for a source that exists but
cannot be opened.  With a single declared source in the `unreadable` state
the code takes the catastrophic path: the returned mapping is empty — the
source's keyword key is NOT present with count 0 as the claim requires —
and the only recorded diagnostic is the final read error. -/
theorem C2_counterexample_unreadable_source :
    checkSecurityLogsGen (fun _ => none) (fun _ => FileState.unreadable) 0 86400
        [("a".toList, [ "x".toList ])]
      = ([], [Diag.readError]) ∧
    dictGet? (checkSecurityLogsGen (fun _ => none) (fun _ => FileState.unreadable) 0 86400
        [("a".toList, [ "x".toList ])]).1 (mkKey "a".toList "x".toList)
      = none := by
  constructor
  · rfl
  · rfl

/-! ### Substring, lowercasing and whitespace lemmas -/

theorem startsWith_iff (n : Str) : ∀ h : Str, startsWith n h = true ↔ ∃ t, h = n ++ t := by
  induction n with
  | nil =>
    intro h
    simp [startsWith]
  | cons a as ih =>
    intro h
    cases h with
    | nil => simp [startsWith]
    | cons b bs =>
      simp only [startsWith, Bool.and_eq_true, decide_eq_true_eq, ih]
      constructor
      · rintro ⟨rfl, t, rfl⟩
        exact ⟨t, rfl⟩
      · rintro ⟨t, ht⟩
        injection ht with h1 h2
        exact ⟨h1.symm, t, h2⟩

theorem containsSub_iff (n h : Str) :
    containsSub n h = true ↔ ∃ pre post, h = pre ++ n ++ post := by
  induction h with
  | nil =>
    simp only [containsSub, startsWith_iff]
    constructor
    · rintro ⟨t, ht⟩
      obtain ⟨hn, htt⟩ := List.append_eq_nil.1 ht.symm
      exact ⟨[], [], by rw [hn]; rfl⟩
    · rintro ⟨pre, post, hp⟩
      obtain ⟨h1, h2⟩ := List.append_eq_nil.1 hp.symm
      obtain ⟨h3, h4⟩ := List.append_eq_nil.1 h1
      exact ⟨[], by simp [h4]⟩
  | cons c rest ih =>
    simp only [containsSub, Bool.or_eq_true, startsWith_iff, ih]
    constructor
    · rintro (⟨t, ht⟩ | ⟨pre, post, hp⟩)
      · exact ⟨[], t, by rw [ht]; rfl⟩
      · refine ⟨c :: pre, post, ?_⟩
        rw [hp]
        simp
    · rintro ⟨pre, post, hp⟩
      cases pre with
      | nil => exact Or.inl ⟨post, by simpa using hp⟩
      | cons c2 pre2 =>
        simp only [List.cons_append, List.append_assoc] at hp
        injection hp with h1 h2
        refine Or.inr ⟨pre2, post, ?_⟩
        rw [h2]
        simp

theorem toNat_ofNat_valid (n : ℕ) (h : n.isValidChar) : (Char.ofNat n).toNat = n := by
  unfold Char.ofNat
  rw [dif_pos h]
  rfl

theorem pyIsSpace_toLower (c : Char) : pyIsSpace (Char.toLower c) = pyIsSpace c := by
  simp only [Char.toLower]
  split
  · rename_i hc
    have hval : (c.toNat + 32).isValidChar := Or.inl (by omega)
    have ht : (Char.ofNat (c.toNat + 32)).toNat = c.toNat + 32 :=
      toNat_ofNat_valid _ hval
    have h1 : pyIsSpace (Char.ofNat (c.toNat + 32)) = false := by
      simp only [pyIsSpace, decide_eq_false_iff_not]
      rw [ht]
      omega
    have h2 : pyIsSpace c = false := by
      simp only [pyIsSpace, decide_eq_false_iff_not]
      omega
    rw [h1, h2]
  · rfl

theorem splitWsAux_ne_nil_of_acc (s : Str) : ∀ acc : Str, acc ≠ [] → splitWsAux s acc ≠ [] := by
  induction s with
  | nil =>
    intro acc hacc
    have : acc.isEmpty = false := by
      cases acc
      · exact absurd rfl hacc
      · rfl
    simp [splitWsAux, this]
  | cons c rest ih =>
    intro acc hacc
    have hne : acc.isEmpty = false := by
      cases acc
      · exact absurd rfl hacc
      · rfl
    by_cases hw : pyIsSpace c = true
    · simp [splitWsAux, hw, hne]
    · have hwf : pyIsSpace c = false := Bool.eq_false_iff.mpr hw
      simp only [splitWsAux, hwf, Bool.false_eq_true, if_false]
      exact ih (c :: acc) (by simp)

theorem splitWsAux_ne_nil_of_mem (s : Str) (c : Char) :
    ∀ acc : Str, c ∈ s → pyIsSpace c = false → splitWsAux s acc ≠ [] := by
  induction s with
  | nil => intro acc hc; simp at hc
  | cons c2 rest ih =>
    intro acc hc hwf
    by_cases hw2 : pyIsSpace c2 = true
    · have hcr : c ∈ rest := by
        rcases List.mem_cons.1 hc with he | hm
        · rw [he] at hwf; rw [hwf] at hw2; cases hw2
        · exact hm
      by_cases hacc : acc.isEmpty = true
      · simp only [splitWsAux, hw2, if_true, hacc]
        exact ih [] hcr hwf
      · have hacc2 : acc.isEmpty = false := Bool.eq_false_iff.mpr hacc
        simp [splitWsAux, hw2, hacc2]
    · have hw2f : pyIsSpace c2 = false := Bool.eq_false_iff.mpr hw2
      simp only [splitWsAux, hw2f, Bool.false_eq_true, if_false]
      exact splitWsAux_ne_nil_of_acc rest (c2 :: acc) (by simp)

theorem splitWs_ne_nil_of_mem (s : Str) (c : Char) (hc : c ∈ s)
    (hwf : pyIsSpace c = false) : splitWs s ≠ [] :=
  splitWsAux_ne_nil_of_mem s c [] hc hwf

theorem line_has_nonws_of_match (kw line : Str) (c : Char) (hc : c ∈ kw)
    (hwf : pyIsSpace c = false) (hm : keywordMatches kw line = true) :
    ∃ c2 ∈ line, pyIsSpace c2 = false := by
  have hsub := (containsSub_iff (lowerStr kw) (lowerStr line)).1 hm
  obtain ⟨pre, post, hp⟩ := hsub
  have hcl : Char.toLower c ∈ lowerStr line := by
    rw [hp]
    refine List.mem_append_left _ (List.mem_append_right _ ?_)
    exact List.mem_map_of_mem _ hc
  obtain ⟨c2, hc2mem, hc2eq⟩ := List.mem_map.1 hcl
  refine ⟨c2, hc2mem, ?_⟩
  have h1 : pyIsSpace (Char.toLower c) = false := by
    rw [pyIsSpace_toLower]; exact hwf
  have h2 : pyIsSpace (Char.toLower c2) = false := by rw [hc2eq]; exact h1
  rw [pyIsSpace_toLower] at h2
  exact h2

/-- C7: a line matches a keyword exactly when the lowercased keyword is a
substring of the lowercased line, and in particular the keyword `sudo`
matches a line containing `SUDO command issued`. -/
theorem C7_case_insensitive_substring :
    (∀ kw line : Str, keywordMatches kw line = true ↔
      ∃ pre post, lowerStr line = pre ++ lowerStr kw ++ post) ∧
    keywordMatches "sudo".toList "SUDO command issued".toList = true := by
  constructor
  · intro kw line
    exact containsSub_iff (lowerStr kw) (lowerStr line)
  · decide

theorem scanKeywords_no_abort (parse : Str → Option ParsedTime) (now window : ℤ)
    (src line : Str) (kws : List Str) (d : Data) (ds : List Diag)
    (hkws : ∀ kw ∈ kws, ∃ c ∈ kw, pyIsSpace c = false) :
    ∃ d2 ds2, scanKeywords parse now window src line kws d ds = Except.ok (d2, ds2) := by
  induction kws generalizing d ds with
  | nil => exact ⟨d, ds, rfl⟩
  | cons kw kws ih =>
    have hkws2 : ∀ kw2 ∈ kws, ∃ c ∈ kw2, pyIsSpace c = false :=
      fun kw2 h2 => hkws kw2 (List.mem_cons_of_mem _ h2)
    simp only [scanKeywords]
    by_cases hm : keywordMatches kw line = true
    · obtain ⟨c, hc, hwf⟩ := hkws kw (List.mem_cons_self _ _)
      obtain ⟨c2, hc2, hwf2⟩ := line_has_nonws_of_match kw line c hc hwf hm
      have hne : splitWs line ≠ [] := splitWs_ne_nil_of_mem line c2 hc2 hwf2
      rw [if_pos hm]
      cases htok : (splitWs line).head? with
      | none => exact absurd (List.head?_eq_none_iff.1 htok) hne
      | some tok =>
        cases hp : parse tok with
        | none =>
          simp only [hp]
          exact ih d (ds ++ [Diag.badTimestamp line]) hkws2
        | some t0 =>
          simp only [hp]
          by_cases hcond : now - instant (localizeUTC t0) ≤ window
          · rw [if_pos hcond]
            exact ih (dictAppend d (mkKey src kw) (localizeUTC t0)) ds hkws2
          · rw [if_neg hcond]
            exact ih d ds hkws2
    · rw [if_neg hm]
      exact ih d ds hkws2

/-- C10 (implicit safety): provided every declared keyword of the source
contains at least one character that is not Python whitespace (the class
`str.split()` splits on), the extraction `line.split()[0]` at a match
site is total: any line containing such a keyword as a (case-insensitive)
substring has at least one whitespace-delimited field, so scanning the
source's lines never takes the out-of-range (`IndexError`) abort branch
and always returns normally. -/
theorem C10_extraction_total (parse : Str → Option ParsedTime) (now window : ℤ)
    (src : Str) (kws : List Str) (lines : List Str) (d : Data) (ds : List Diag)
    (hkws : ∀ kw ∈ kws, ∃ c ∈ kw, pyIsSpace c = false) :
    ∃ d2 ds2, scanLines parse now window src kws lines d ds = Except.ok (d2, ds2) := by
  induction lines generalizing d ds with
  | nil => exact ⟨d, ds, rfl⟩
  | cons line rest ih =>
    obtain ⟨d3, ds3, h3⟩ := scanKeywords_no_abort parse now window src line kws d ds hkws
    simp only [scanLines, h3]
    exact ih d3 ds3

theorem scanKeywords_badParse (parse : Str → Option ParsedTime) (now window : ℤ)
    (src line tok : Str) (kws : List Str) (d : Data)
    (htok : (splitWs line).head? = some tok) (hbad : parse tok = none) :
    ∀ ds : List Diag,
      scanKeywords parse now window src line kws d ds
        = Except.ok (d, ds ++ (kws.filter (fun kw => keywordMatches kw line)).map
            (fun _ => Diag.badTimestamp line)) := by
  induction kws with
  | nil =>
    intro ds
    simp [scanKeywords]
  | cons kw kws ih =>
    intro ds
    simp only [scanKeywords]
    by_cases hm : keywordMatches kw line = true
    · rw [if_pos hm, htok]
      simp only [hbad]
      rw [ih (ds ++ [Diag.badTimestamp line])]
      rw [List.filter_cons_of_pos (by simpa using hm), List.map_cons, List.append_assoc]
      rfl
    · rw [if_neg hm, ih ds,
        List.filter_cons_of_neg (by simpa using hm)]

/-- C5: a matched line whose first whitespace field does not parse as an
ISO-8601 timestamp only loses its own matches: the scan of the source
continues on the remaining lines with the occurrence table unchanged, one
`badTimestamp` diagnostic is recorded per matching keyword of the bad
line, and the diagnostic is present in the recorded list. -/
theorem C5_bad_timestamp_skips_single_line (parse : Str → Option ParsedTime)
    (now window : ℤ) (src line tok : Str) (kws : List Str) (rest : List Str)
    (d : Data) (ds : List Diag) (kw0 : Str)
    (htok : (splitWs line).head? = some tok) (hbad : parse tok = none)
    (hkw0 : kw0 ∈ kws) (hm : keywordMatches kw0 line = true) :
    scanLines parse now window src kws (line :: rest) d ds
      = scanLines parse now window src kws rest d
          (ds ++ (kws.filter (fun kw => keywordMatches kw line)).map
            (fun _ => Diag.badTimestamp line)) ∧
    Diag.badTimestamp line
      ∈ ds ++ (kws.filter (fun kw => keywordMatches kw line)).map
          (fun _ => Diag.badTimestamp line) := by
  constructor
  · simp only [scanLines,
      scanKeywords_badParse parse now window src line tok kws d htok hbad ds]
  · refine List.mem_append_right _ ?_
    exact List.mem_map.2 ⟨kw0, List.mem_filter.2 ⟨hkw0, by simpa using hm⟩, rfl⟩

/-- C6: a parsed occurrence is retained exactly when `now - t ≤ window`:
on a match the scan appends the occurrence when the condition holds and
drops it otherwise, an occurrence whose instant is exactly `now - window`
satisfies the condition (it is counted), and one at `now - window - 1`
second does not (it is excluded). -/
theorem C6_window_boundary (parse : Str → Option ParsedTime) (now window : ℤ)
    (src line tok : Str) (t0 : ParsedTime) (kw : Str) (kws : List Str)
    (d : Data) (ds : List Diag)
    (hm : keywordMatches kw line = true)
    (htok : (splitWs line).head? = some tok)
    (hp : parse tok = some t0) :
    (now - instant (localizeUTC t0) ≤ window →
      scanKeywords parse now window src line (kw :: kws) d ds
        = scanKeywords parse now window src line kws
            (dictAppend d (mkKey src kw) (localizeUTC t0)) ds) ∧
    (¬ (now - instant (localizeUTC t0) ≤ window) →
      scanKeywords parse now window src line (kw :: kws) d ds
        = scanKeywords parse now window src line kws d ds) ∧
    (instant (localizeUTC t0) = now - window →
      now - instant (localizeUTC t0) ≤ window) ∧
    (instant (localizeUTC t0) = now - window - 1 →
      ¬ (now - instant (localizeUTC t0) ≤ window)) := by
  refine ⟨?_, ?_, ?_, ?_⟩
  · intro hcond
    simp only [scanKeywords, if_pos hm, htok, hp]
    rw [if_pos hcond]
  · intro hcond
    simp only [scanKeywords, if_pos hm, htok, hp]
    rw [if_neg hcond]
  · intro he
    rw [he]
    linarith
  · intro he
    rw [he]
    intro hle
    linarith

/-- C8: a naive parsed timestamp is tagged as already being UTC: its
wall-clock value is unchanged, its instant equals that wall-clock value,
and the scan's window filter and the appended occurrence (which feeds the
interval arithmetic) use exactly this tagged value. -/
theorem C8_naive_treated_as_utc (parse : Str → Option ParsedTime) (now window : ℤ)
    (src line tok : Str) (t0 : ParsedTime) (kw : Str) (kws : List Str)
    (d : Data) (ds : List Diag)
    (hm : keywordMatches kw line = true)
    (htok : (splitWs line).head? = some tok)
    (hp : parse tok = some t0)
    (hnaive : t0.tz = none) :
    localizeUTC t0 = { wall := t0.wall, tz := some 0 } ∧
    instant (localizeUTC t0) = t0.wall ∧
    scanKeywords parse now window src line (kw :: kws) d ds
      = (if now - t0.wall ≤ window
         then scanKeywords parse now window src line kws
                (dictAppend d (mkKey src kw) { wall := t0.wall, tz := some 0 }) ds
         else scanKeywords parse now window src line kws d ds) := by
  obtain ⟨wall, tz⟩ := t0
  simp only at hnaive
  subst hnaive
  have hloc : localizeUTC { wall := wall, tz := none } = { wall := wall, tz := some 0 } := rfl
  have hinst : instant { wall := wall, tz := (some 0 : Option ℤ) } = wall := by
    simp [instant]
  refine ⟨hloc, by rw [hloc]; exact hinst, ?_⟩
  simp only [scanKeywords, if_pos hm, htok, hp, hloc, hinst]

/-- C9: the window filter has no lower bound: a matched occurrence whose
instant lies strictly in the future of `now` still satisfies
`now - t ≤ window` (for the nonnegative window the program uses), so it is
appended to its key's occurrence list and increases that key's count by
one, thereby also entering the interval computation. -/
theorem C9_future_occurrences_retained (parse : Str → Option ParsedTime) (now window : ℤ)
    (src line tok : Str) (t0 : ParsedTime) (kw : Str) (kws : List Str)
    (d : Data) (ds : List Diag)
    (hm : keywordMatches kw line = true)
    (htok : (splitWs line).head? = some tok)
    (hp : parse tok = some t0)
    (hfut : now < instant (localizeUTC t0))
    (hwin : 0 ≤ window) :
    scanKeywords parse now window src line (kw :: kws) d ds
      = scanKeywords parse now window src line kws
          (dictAppend d (mkKey src kw) (localizeUTC t0)) ds ∧
    dictGet? (dictAppend d (mkKey src kw) (localizeUTC t0)) (mkKey src kw)
      = some ((dictGet? d (mkKey src kw)).getD [] ++ [localizeUTC t0]) ∧
    (statsFor ((dictGet? d (mkKey src kw)).getD [] ++ [localizeUTC t0])).count
      = ((dictGet? d (mkKey src kw)).getD []).length + 1 := by
  have hcond : now - instant (localizeUTC t0) ≤ window := by linarith
  refine ⟨?_, ?_, ?_⟩
  · simp only [scanKeywords, if_pos hm, htok, hp]
    rw [if_pos hcond]
  · rw [dictAppend, dictGet?_dictSet]
    exact if_pos rfl
  · rw [statsFor_count, List.length_append]
    rfl

/-! ### Concrete witnesses -/

/-- Witness for C1 at a concrete run with one retained occurrence. -/
theorem C1_per_key_stats_witness :
    (scanSources
        (fun s => if s = "1".toList then some { wall := 1, tz := some 0 } else none)
        10 86400 (fun _ => FileState.readable [ "1 x".toList ])
        [("a".toList, [ "x".toList ])]
        (initData [("a".toList, [ "x".toList ])] []) []
      = Except.ok
          ([(mkKey "a".toList "x".toList, [{ wall := 1, tz := some 0 }])], []) ∧
     dictGet?
        [(mkKey "a".toList "x".toList, [({ wall := 1, tz := some 0 } : ParsedTime)])]
        (mkKey "a".toList "x".toList)
      = some [{ wall := 1, tz := some 0 }]) ∧
    (dictGet? (checkSecurityLogsGen
        (fun s => if s = "1".toList then some { wall := 1, tz := some 0 } else none)
        (fun _ => FileState.readable [ "1 x".toList ])
        10 86400 [("a".toList, [ "x".toList ])]).1 (mkKey "a".toList "x".toList)
      = some (statsFor [{ wall := 1, tz := some 0 }]) ∧
     (statsFor [({ wall := 1, tz := some 0 } : ParsedTime)]).count
      = [({ wall := 1, tz := some 0 } : ParsedTime)].length ∧
     List.Perm (sortTimes [({ wall := 1, tz := some 0 } : ParsedTime)])
        [({ wall := 1, tz := some 0 } : ParsedTime)] ∧
     List.Sorted (fun a b => instant a ≤ instant b)
        (sortTimes [({ wall := 1, tz := some 0 } : ParsedTime)]) ∧
     ([({ wall := 1, tz := some 0 } : ParsedTime)].length ≤ 1 →
       (statsFor [({ wall := 1, tz := some 0 } : ParsedTime)]).averageIntervalSeconds
        = 0) ∧
     (2 ≤ [({ wall := 1, tz := some 0 } : ParsedTime)].length →
       (intervalsOf (sortTimes [({ wall := 1, tz := some 0 } : ParsedTime)])).length
        = [({ wall := 1, tz := some 0 } : ParsedTime)].length - 1 ∧
       (statsFor [({ wall := 1, tz := some 0 } : ParsedTime)]).averageIntervalSeconds
        = ((intervalsOf (sortTimes [({ wall := 1, tz := some 0 } : ParsedTime)])).sum : ℚ)
          / ((intervalsOf
              (sortTimes [({ wall := 1, tz := some 0 } : ParsedTime)])).length : ℚ))) :=
  ⟨⟨rfl, by decide⟩,
    C1_per_key_stats
      (fun s => if s = "1".toList then some { wall := 1, tz := some 0 } else none)
      (fun _ => FileState.readable [ "1 x".toList ])
      10 86400 [("a".toList, [ "x".toList ])]
      [(mkKey "a".toList "x".toList, [{ wall := 1, tz := some 0 }])] []
      rfl (mkKey "a".toList "x".toList) [{ wall := 1, tz := some 0 }] (by decide)⟩

/-- Witness for the amended C2 at a concrete run with a missing source. -/
theorem C2_amended_absent_source_zero_stats_witness :
    (("a".toList, [ "x".toList ]) ∈ [("a".toList, [ "x".toList ])] ∧
     "x".toList ∈ [ "x".toList ] ∧
     (fun (_ : Str) => FileState.absent) "a".toList = FileState.absent ∧
     (∀ p ∈ [("a".toList, [ "x".toList ])], ∀ kw2 ∈ p.2,
        mkKey p.1 kw2 = mkKey "a".toList "x".toList
          → (fun (_ : Str) => FileState.absent) p.1 = FileState.absent) ∧
     scanSources (fun _ => none) 0 0 (fun _ => FileState.absent)
        [("a".toList, [ "x".toList ])] (initData [("a".toList, [ "x".toList ])] []) []
      = Except.ok ([(mkKey "a".toList "x".toList, [])], [Diag.missingSource "a".toList])) ∧
    (checkSecurityLogsGen (fun _ => none) (fun _ => FileState.absent) 0 0
        [("a".toList, [ "x".toList ])]
      = (computeStats [(mkKey "a".toList "x".toList, [])], [Diag.missingSource "a".toList]) ∧
     Diag.missingSource "a".toList ∈ [Diag.missingSource "a".toList] ∧
     dictGet? (computeStats [(mkKey "a".toList "x".toList, [])]) (mkKey "a".toList "x".toList)
      = some { count := 0, averageIntervalSeconds := 0 }) :=
  ⟨⟨by decide, by decide, rfl, by decide, rfl⟩,
    C2_amended_absent_source_zero_stats (fun _ => none) (fun _ => FileState.absent) 0 0
      [("a".toList, [ "x".toList ])]
      [(mkKey "a".toList "x".toList, [])] [Diag.missingSource "a".toList]
      "a".toList [ "x".toList ] "x".toList
      (by decide) (by decide) rfl (by decide) rfl⟩

/-- Witness for C3 at the same concrete run. -/
theorem C3_all_keys_present_witness :
    (scanSources (fun _ => none) 0 0 (fun _ => FileState.absent)
        [("a".toList, [ "x".toList ])] (initData [("a".toList, [ "x".toList ])] []) []
      = Except.ok ([(mkKey "a".toList "x".toList, [])], [Diag.missingSource "a".toList]) ∧
     ("a".toList, [ "x".toList ]) ∈ [("a".toList, [ "x".toList ])] ∧
     "x".toList ∈ [ "x".toList ]) ∧
    (checkSecurityLogsGen (fun _ => none) (fun _ => FileState.absent) 0 0
        [("a".toList, [ "x".toList ])]
      = (computeStats [(mkKey "a".toList "x".toList, [])], [Diag.missingSource "a".toList]) ∧
     ∃ l : List ParsedTime,
      dictGet? [(mkKey "a".toList "x".toList, [])] (mkKey "a".toList "x".toList) = some l ∧
      dictGet? (computeStats [(mkKey "a".toList "x".toList, [])]) (mkKey "a".toList "x".toList)
        = some (statsFor l) ∧
      (l = [] → statsFor l = { count := 0, averageIntervalSeconds := 0 }) ∧
      ((computeStats [(mkKey "a".toList "x".toList, [])]).map Prod.fst).Nodup ∧
      mkKey "a".toList "x".toList
        ∈ (computeStats [(mkKey "a".toList "x".toList, [])]).map Prod.fst) :=
  ⟨⟨rfl, by decide, by decide⟩,
    C3_all_keys_present (fun _ => none) (fun _ => FileState.absent) 0 0
      [("a".toList, [ "x".toList ])]
      [(mkKey "a".toList "x".toList, [])] [Diag.missingSource "a".toList]
      rfl "a".toList [ "x".toList ] "x".toList (by decide) (by decide)⟩

/-- Witness for C5 at a concrete matched line with an unparseable field. -/
theorem C5_bad_timestamp_skips_single_line_witness :
    ((splitWs "b x".toList).head? = some "b".toList ∧
     (fun (_ : Str) => (none : Option ParsedTime)) "b".toList = none ∧
     "x".toList ∈ [ "x".toList ] ∧
     keywordMatches "x".toList "b x".toList = true) ∧
    (scanLines (fun _ => none) 0 0 "a".toList [ "x".toList ] ("b x".toList :: []) [] []
      = scanLines (fun _ => none) 0 0 "a".toList [ "x".toList ] [] []
          ([] ++ ([ "x".toList ].filter
              (fun kw => keywordMatches kw "b x".toList)).map
            (fun _ => Diag.badTimestamp "b x".toList)) ∧
     Diag.badTimestamp "b x".toList
      ∈ [] ++ ([ "x".toList ].filter
          (fun kw => keywordMatches kw "b x".toList)).map
        (fun _ => Diag.badTimestamp "b x".toList)) :=
  ⟨⟨by decide, rfl, by decide, by decide⟩,
    C5_bad_timestamp_skips_single_line (fun _ => none) 0 0 "a".toList "b x".toList
      "b".toList [ "x".toList ] [] [] [] "x".toList
      (by decide) rfl (by decide) (by decide)⟩

/-- Witness for C6 at a concrete parsed occurrence. -/
theorem C6_window_boundary_witness :
    (keywordMatches "x".toList "5 x".toList = true ∧
     (splitWs "5 x".toList).head? = some "5".toList ∧
     (fun s => if s = "5".toList
        then some { wall := 5, tz := some 0 } else (none : Option ParsedTime)) "5".toList
      = some { wall := 5, tz := some 0 }) ∧
    ((10 - instant (localizeUTC { wall := 5, tz := some 0 }) ≤ 86400 →
      scanKeywords
          (fun s => if s = "5".toList then some { wall := 5, tz := some 0 } else none)
          10 86400 "a".toList "5 x".toList ("x".toList :: []) [] []
        = scanKeywords
            (fun s => if s = "5".toList then some { wall := 5, tz := some 0 } else none)
            10 86400 "a".toList "5 x".toList []
            (dictAppend [] (mkKey "a".toList "x".toList)
              (localizeUTC { wall := 5, tz := some 0 })) []) ∧
     (¬ (10 - instant (localizeUTC { wall := 5, tz := some 0 }) ≤ 86400) →
      scanKeywords
          (fun s => if s = "5".toList then some { wall := 5, tz := some 0 } else none)
          10 86400 "a".toList "5 x".toList ("x".toList :: []) [] []
        = scanKeywords
            (fun s => if s = "5".toList then some { wall := 5, tz := some 0 } else none)
            10 86400 "a".toList "5 x".toList [] [] []) ∧
     (instant (localizeUTC { wall := 5, tz := some 0 }) = 10 - 86400 →
      10 - instant (localizeUTC { wall := 5, tz := some 0 }) ≤ 86400) ∧
     (instant (localizeUTC { wall := 5, tz := some 0 }) = 10 - 86400 - 1 →
      ¬ (10 - instant (localizeUTC { wall := 5, tz := some 0 }) ≤ 86400))) :=
  ⟨⟨by decide, by decide, by decide⟩,
    C6_window_boundary
      (fun s => if s = "5".toList then some { wall := 5, tz := some 0 } else none)
      10 86400 "a".toList "5 x".toList "5".toList { wall := 5, tz := some 0 }
      "x".toList [] [] []
      (by decide) (by decide) (by decide)⟩

/-- Witness for C8 at a concrete naive timestamp. -/
theorem C8_naive_treated_as_utc_witness :
    (keywordMatches "x".toList "5 x".toList = true ∧
     (splitWs "5 x".toList).head? = some "5".toList ∧
     (fun s => if s = "5".toList
        then some { wall := 5, tz := none } else (none : Option ParsedTime)) "5".toList
      = some { wall := 5, tz := none } ∧
     ({ wall := 5, tz := none } : ParsedTime).tz = none) ∧
    (localizeUTC { wall := 5, tz := none }
      = { wall := ({ wall := 5, tz := none } : ParsedTime).wall, tz := some 0 } ∧
     instant (localizeUTC { wall := 5, tz := none })
      = ({ wall := 5, tz := none } : ParsedTime).wall ∧
     scanKeywords
        (fun s => if s = "5".toList then some { wall := 5, tz := none } else none)
        10 86400 "a".toList "5 x".toList ("x".toList :: []) [] []
      = (if 10 - ({ wall := 5, tz := none } : ParsedTime).wall ≤ 86400
         then scanKeywords
               (fun s => if s = "5".toList then some { wall := 5, tz := none } else none)
               10 86400 "a".toList "5 x".toList []
               (dictAppend [] (mkKey "a".toList "x".toList)
                 { wall := ({ wall := 5, tz := none } : ParsedTime).wall, tz := some 0 }) []
         else scanKeywords
               (fun s => if s = "5".toList then some { wall := 5, tz := none } else none)
               10 86400 "a".toList "5 x".toList [] [] [])) :=
  ⟨⟨by decide, by decide, by decide, rfl⟩,
    C8_naive_treated_as_utc
      (fun s => if s = "5".toList then some { wall := 5, tz := none } else none)
      10 86400 "a".toList "5 x".toList "5".toList { wall := 5, tz := none }
      "x".toList [] [] []
      (by decide) (by decide) (by decide) rfl⟩

/-- Witness for C9 at a concrete future-dated occurrence. -/
theorem C9_future_occurrences_retained_witness :
    (keywordMatches "x".toList "5 x".toList = true ∧
     (splitWs "5 x".toList).head? = some "5".toList ∧
     (fun s => if s = "5".toList
        then some { wall := 5, tz := some 0 } else (none : Option ParsedTime)) "5".toList
      = some { wall := 5, tz := some 0 } ∧
     (0 : ℤ) < instant (localizeUTC { wall := 5, tz := some 0 }) ∧
     (0 : ℤ) ≤ 86400) ∧
    (scanKeywords
        (fun s => if s = "5".toList then some { wall := 5, tz := some 0 } else none)
        0 86400 "a".toList "5 x".toList ("x".toList :: []) [] []
      = scanKeywords
          (fun s => if s = "5".toList then some { wall := 5, tz := some 0 } else none)
          0 86400 "a".toList "5 x".toList []
          (dictAppend [] (mkKey "a".toList "x".toList)
            (localizeUTC { wall := 5, tz := some 0 })) [] ∧
     dictGet? (dictAppend [] (mkKey "a".toList "x".toList)
          (localizeUTC { wall := 5, tz := some 0 })) (mkKey "a".toList "x".toList)
      = some ((dictGet? [] (mkKey "a".toList "x".toList)).getD []
          ++ [localizeUTC { wall := 5, tz := some 0 }]) ∧
     (statsFor ((dictGet? [] (mkKey "a".toList "x".toList)).getD []
          ++ [localizeUTC { wall := 5, tz := some 0 }])).count
      = ((dictGet? ([] : Data) (mkKey "a".toList "x".toList)).getD []).length + 1) :=
  ⟨⟨by decide, by decide, by decide, by decide, by decide⟩,
    C9_future_occurrences_retained
      (fun s => if s = "5".toList then some { wall := 5, tz := some 0 } else none)
      0 86400 "a".toList "5 x".toList "5".toList { wall := 5, tz := some 0 }
      "x".toList [] [] []
      (by decide) (by decide) (by decide) (by decide) (by decide)⟩

/-- Witness for C10 at a concrete source scan. -/
theorem C10_extraction_total_witness :
    (∀ kw ∈ [ "x".toList ], ∃ c ∈ kw, pyIsSpace c = false) ∧
    (∃ d2 ds2, scanLines (fun _ => none) 0 0 "a".toList [ "x".toList ]
        [ "b x".toList ] [] [] = Except.ok (d2, ds2)) :=
  ⟨by decide,
    C10_extraction_total (fun _ => none) 0 0 "a".toList [ "x".toList ]
      [ "b x".toList ] [] [] (by decide)⟩
